import Mathlib

/-!
Shallow embedding of `src/hw01/src/main.rs`, a minimal concurrent HTTP echo
server with a mutex-guarded path-count cache.  Byte sequences are `List Nat`
(each element a byte value below 256); decoded strings are `List Nat` of
Unicode scalar values.  The per-connection handler is modelled as a pure
function from the sequence of chunks returned by successive `read` calls and
the cache state at lookup time; the unlocked simulated delay, during which
concurrent handlers may mutate the cache, is modelled by an explicit
interference function applied to the cache between the lookup and the
insert-or-increment step.
-/

/-- Bytes of a Lean string literal, used for the ASCII header constants that
the Rust source builds with `format!`. -/
def strCodes (s : String) : List Nat := s.data.map Char.toNat

/-- UTF-8 continuation byte test (0x80..=0xBF), as in Rust's validation. -/
def contByte (b : Nat) : Bool := 0x80 ≤ b && b ≤ 0xBF

/-- Valid second bytes of a three-byte sequence, per Rust
`run_utf8_validation`: E0 requires A0..BF, ED requires 80..9F (no
surrogates), the rest a plain continuation byte. -/
def valid3Second (b0 b1 : Nat) : Bool :=
  if b0 == 0xE0 then 0xA0 ≤ b1 && b1 ≤ 0xBF
  else if b0 == 0xED then 0x80 ≤ b1 && b1 ≤ 0x9F
  else contByte b1

/-- Valid second bytes of a four-byte sequence, per Rust
`run_utf8_validation`: F0 requires 90..BF, F4 requires 80..8F (≤ U+10FFFF),
the rest a plain continuation byte. -/
def valid4Second (b0 b1 : Nat) : Bool :=
  if b0 == 0xF0 then 0x90 ≤ b1 && b1 ≤ 0xBF
  else if b0 == 0xF4 then 0x80 ≤ b1 && b1 ≤ 0x8F
  else contByte b1

/-- The Unicode replacement character U+FFFD emitted by
`String::from_utf8_lossy` for invalid sequences. -/
def replChar : Nat := 0xFFFD

/-- One step of lossy UTF-8 decoding: given the first byte and the remaining
bytes, return the decoded scalar value (`replChar` on error), the bytes left
after the step, and whether the step consumed a valid sequence.  Error
lengths (how many bytes an invalid sequence consumes) follow Rust's
`Utf8Error::error_len`; a truncated valid prefix at end of input consumes
the whole suffix and yields one replacement, as `from_utf8_lossy` does. -/
def utf8Step (b0 : Nat) (rest : List Nat) : Nat × List Nat × Bool :=
  if b0 < 0x80 then (b0, rest, true)
  else if 0xC2 ≤ b0 && b0 ≤ 0xDF then
    match rest with
    | [] => (replChar, [], false)
    | b1 :: r1 =>
      if contByte b1 then ((b0 - 0xC0) * 64 + (b1 - 0x80), r1, true)
      else (replChar, b1 :: r1, false)
  else if 0xE0 ≤ b0 && b0 ≤ 0xEF then
    match rest with
    | [] => (replChar, [], false)
    | b1 :: r1 =>
      if valid3Second b0 b1 then
        match r1 with
        | [] => (replChar, [], false)
        | b2 :: r2 =>
          if contByte b2 then
            ((b0 - 0xE0) * 4096 + (b1 - 0x80) * 64 + (b2 - 0x80), r2, true)
          else (replChar, b2 :: r2, false)
      else (replChar, b1 :: r1, false)
  else if 0xF0 ≤ b0 && b0 ≤ 0xF4 then
    match rest with
    | [] => (replChar, [], false)
    | b1 :: r1 =>
      if valid4Second b0 b1 then
        match r1 with
        | [] => (replChar, [], false)
        | b2 :: r2 =>
          if contByte b2 then
            match r2 with
            | [] => (replChar, [], false)
            | b3 :: r3 =>
              if contByte b3 then
                ((b0 - 0xF0) * 262144 + (b1 - 0x80) * 4096 +
                  (b2 - 0x80) * 64 + (b3 - 0x80), r3, true)
              else (replChar, b3 :: r3, false)
          else (replChar, b2 :: r2, false)
      else (replChar, b1 :: r1, false)
  else (replChar, rest, false)

/-- Iterated decoding steps, with fuel bounding the number of steps; each
step consumes at least one byte, so fuel equal to the byte count always
suffices. -/
def utf8LossyGo : Nat → List Nat → List Nat
  | _, [] => []
  | 0, _ :: _ => []
  | fuel + 1, b0 :: rest =>
    (utf8Step b0 rest).1 :: utf8LossyGo fuel (utf8Step b0 rest).2.1

/-- Lossy UTF-8 decoding of a byte sequence to scalar values, modelling
`String::from_utf8_lossy`. -/
def utf8Lossy (bs : List Nat) : List Nat := utf8LossyGo bs.length bs

/-- Iterated validity checking, with the same fuel discipline as
`utf8LossyGo`. -/
def validUtf8Go : Nat → List Nat → Bool
  | _, [] => true
  | 0, _ :: _ => false
  | fuel + 1, b0 :: rest =>
    (utf8Step b0 rest).2.2 && validUtf8Go fuel (utf8Step b0 rest).2.1

/-- Whether a byte sequence is valid UTF-8: every decoding step succeeds. -/
def validUtf8 (bs : List Nat) : Bool := validUtf8Go bs.length bs

/-- UTF-8 encoding of one scalar value, as `str::as_bytes` exposes for each
char of a decoded `String`. -/
def utf8EncodeChar (c : Nat) : List Nat :=
  if c < 0x80 then [c]
  else if c < 0x800 then [0xC0 + c / 64, 0x80 + c % 64]
  else if c < 0x10000 then
    [0xE0 + c / 4096, 0x80 + (c / 64) % 64, 0x80 + c % 64]
  else
    [0xF0 + c / 262144, 0x80 + (c / 4096) % 64, 0x80 + (c / 64) % 64,
      0x80 + c % 64]

/-- UTF-8 encoding of a sequence of scalar values. -/
def utf8Encode (cs : List Nat) : List Nat := (cs.map utf8EncodeChar).flatten

/-- Bytes of a string literal after UTF-8 encoding (what Rust writes for a
`format!` result). -/
def strBytes (s : String) : List Nat := utf8Encode (strCodes s)

/-- `find_crlf` from the source: index of the first adjacent `\r\n` pair in
the buffer, scanning positions `0..len-1`. -/
def find_crlf (buf : List Nat) : Option Nat :=
  match buf with
  | a :: b :: rest =>
    if a == 13 && b == 10 then some 0
    else (find_crlf (b :: rest)).map (· + 1)
  | _ => none

/-- The decoded path `"/"` that `parse_path_from_request_line` falls back
to. -/
def rootPath : List Nat := [47]

/-- The bytes of the method token `"GET"`. -/
def getBytes : List Nat := [71, 69, 84]

/-- The bytes of the literal `b"/"` used when no path token is present. -/
def slashBytes : List Nat := [47]

/-- `parse_path_from_request_line` from the source: split the request line
on spaces; a non-`GET` first token yields the root path, otherwise the
second token (or `b"/"` when missing) is decoded lossily. -/
def parse_path_from_request_line (line : List Nat) : Option (List Nat) :=
  match line.splitOn 32 with
  | [] => none
  | method :: parts =>
    if method ≠ getBytes then some rootPath
    else some (utf8Lossy (parts.headD slashBytes))

/-- The shared cache: an association of decoded paths to access counts,
modelling `HashMap<String, usize>` (unique keys, unordered). -/
abbrev Cache := List (List Nat × Nat)

/-- `map.get(&path)` on the cache: the count stored for a path, if any. -/
def cacheLookup (c : Cache) (p : List Nat) : Option Nat :=
  match c with
  | [] => none
  | (q, n) :: rest => if q = p then some n else cacheLookup rest p

/-- The hit-path update `*cnt += 1` through `get_mut`: increment the count
of an existing entry, leaving everything else unchanged. -/
def cacheIncr (c : Cache) (p : List Nat) : Cache :=
  match c with
  | [] => []
  | (q, n) :: rest =>
    if q = p then (q, n + 1) :: rest else (q, n) :: cacheIncr rest p

/-- The miss-path update `map.entry(path).or_insert(0); *entry += 1`:
increment an existing entry, or insert the path with count 1. -/
def cacheBump (c : Cache) (p : List Nat) : Cache :=
  match cacheLookup c p with
  | some _ => cacheIncr c p
  | none => c ++ [(p, 1)]

/-- Size of the read buffer `[0u8; 8192]` in `handle_conn`. -/
def bufSize : Nat := 8192

/-- Outcome of the request-line read loop in `handle_conn`. -/
inductive ReadResult where
  | line (l : List Nat)
  | closed
  | full
  | pending
deriving DecidableEq, Repr

/-- The read loop of `handle_conn`: starting from the bytes already
buffered, consume successive `read` results.  A full buffer stops the loop;
a zero-length read means the peer closed; otherwise the new bytes are
appended and the buffer is scanned for CRLF, whose presence yields the
request line (the bytes before the first CRLF).  `pending` stands for the
handler still being blocked on `read` when the supplied chunk sequence is
exhausted. -/
def readLoop (buf : List Nat) (chunks : List (List Nat)) : ReadResult :=
  if buf.length = bufSize then .full
  else
    match chunks with
    | [] => .pending
    | c :: rest =>
      if c.length = 0 then .closed
      else
        match find_crlf (buf ++ c) with
        | some i => .line ((buf ++ c).take i)
        | none => readLoop (buf ++ c) rest

/-- Bytes of the decimal rendering of a number, as `format!` interpolates a
`usize`. -/
def natDigits (n : Nat) : List Nat := strBytes (toString n)

/-- The success header built in `handle_conn` for a body of the given byte
length. -/
def okHeader (len : Nat) : List Nat :=
  strBytes "HTTP/1.1 200 OK\r\nContent-Type: text/plain; charset=utf-8\r\nContent-Length: " ++
    natDigits len ++ strBytes "\r\nConnection: close\r\n\r\n"

/-- The fixed 400 response written when the buffer fills with no CRLF. -/
def resp400 : List Nat :=
  strBytes "HTTP/1.1 400 Bad Request\r\nConnection: close\r\nContent-Length: 0\r\n\r\n"

/-- Scalar values of the hit-marker suffix `" 🙂"` appended on a cache
hit. -/
def hitMarker : List Nat := [32, 0x1F642]

/-- Body bytes of the hit response `format!("{path} 🙂")`. -/
def hitBody (path : List Nat) : List Nat := utf8Encode (path ++ hitMarker)

/-- All bytes written for a cache hit: header then body. -/
def hitResponse (path : List Nat) : List Nat :=
  okHeader (hitBody path).length ++ hitBody path

/-- Body bytes of the miss response, `path.as_bytes()`. -/
def missBody (path : List Nat) : List Nat := utf8Encode path

/-- All bytes written for a cache miss: header then body. -/
def missResponse (path : List Nat) : List Nat :=
  okHeader (missBody path).length ++ missBody path

/-- The path served for a request line:
`parse_path_from_request_line(line).unwrap_or_else(|| "/".to_string())`. -/
def pathOfLine (l : List Nat) : List Nat :=
  (parse_path_from_request_line l).getD rootPath

/-- `handle_conn`, as a pure function of the sequence of `read` results and
the cache state at lookup time.  The result is the final cache state, the
bytes written to the stream, and whether the simulated one-second delay was
performed; `none` models a handler still blocked on `read`.  `interf`
models the cache mutations performed by concurrently running handlers
during the unlocked delay of the miss path (`id` for an isolated
connection); the hit path holds no unlocked window, so its result never
depends on `interf`. -/
def handle_conn (chunks : List (List Nat)) (cache : Cache)
    (interf : Cache → Cache) : Option (Cache × List Nat × Bool) :=
  match readLoop [] chunks with
  | .pending => none
  | .closed => some (cache, [], false)
  | .full => some (cache, resp400, false)
  | .line l =>
    match cacheLookup cache (pathOfLine l) with
    | some _ =>
      some (cacheIncr cache (pathOfLine l), hitResponse (pathOfLine l),
        false)
    | none =>
      some (cacheBump (interf cache) (pathOfLine l),
        missResponse (pathOfLine l), true)

/-- `handle_conn` of a connection running with no concurrent handlers. -/
def handle_conn_seq (chunks : List (List Nat)) (cache : Cache) :
    Option (Cache × List Nat × Bool) :=
  handle_conn chunks cache id

/-- The worker pool: the observable outcome of `ThreadPool::new` is the
list of spawned worker threads (modelled by their ids). -/
structure ThreadPool where
  workers : List Nat

/-- `ThreadPool::new`: `assert!(size > 0)` aborts construction for size 0
(`none`); otherwise one worker per id in `0..size` is spawned. -/
def threadPoolNew (size : Nat) : Option ThreadPool :=
  if 0 < size then some ⟨List.range size⟩ else none

/-- Descending-count comparison used by `items.sort_by(|a, b|
b.1.cmp(&a.1))` in `print_cache_stats`. -/
def descCount (a b : List Nat × Nat) : Prop := b.2 ≤ a.2

instance : DecidableRel descCount := fun a b => Nat.decLe b.2 a.2

instance : IsTotal (List Nat × Nat) descCount :=
  ⟨fun a b => Nat.le_total b.2 a.2⟩

instance : IsTrans (List Nat × Nat) descCount :=
  ⟨fun _ _ _ h1 h2 => Nat.le_trans h2 h1⟩

/-- The sort performed by `print_cache_stats` on the snapshot. -/
def sortByCountDesc (items : List (List Nat × Nat)) : List (List Nat × Nat) :=
  items.insertionSort descCount

/-- One printed line `{cnt:>6}  {path}`: the count right-aligned to width
six, two spaces, then the path bytes. -/
def statsLine (e : List Nat × Nat) : List Nat :=
  List.replicate (6 - (natDigits e.2).length) 32 ++ natDigits e.2 ++
    [32, 32] ++ utf8Encode e.1

/-- The lines printed by `print_cache_stats` after the banner, from a
snapshot of the cache: the placeholder when empty, otherwise one line per
entry in descending-count order. -/
def statsLines (items : List (List Nat × Nat)) : List (List Nat) :=
  if items = [] then [strBytes "(empty)"]
  else (sortByCountDesc items).map statsLine

/-- The cache invariant: every stored count is at least one, and paths are
unique keys (as in a `HashMap`). -/
def cacheWF (c : Cache) : Prop :=
  (∀ e ∈ c, 1 ≤ e.2) ∧ (c.map Prod.fst).Nodup

instance (c : Cache) : Decidable (cacheWF c) := by
  unfold cacheWF; infer_instance

/-- Each decoding step leaves no more bytes than it was given. -/
theorem utf8Step_rest_le (b0 : Nat) (rest : List Nat) :
    (utf8Step b0 rest).2.1.length ≤ rest.length := by
  unfold utf8Step
  split
  · exact Nat.le_refl _
  split
  · split <;> simp_all <;> split <;> simp_all <;> omega
  split
  · split
    · simp
    · split
      · split
        · simp
        · split <;> simp <;> omega
      · simp
  split
  · split
    · simp
    · split
      · split
        · simp
        · split
          · split
            · simp
            · split <;> simp <;> omega
          · simp
      · simp
  · exact Nat.le_refl _

/-- Every decoding step either succeeds or emits the replacement
character. -/
theorem utf8Step_valid_or_repl (b0 : Nat) (rest : List Nat) :
    (utf8Step b0 rest).2.2 = true ∨ (utf8Step b0 rest).1 = replChar := by
  unfold utf8Step
  repeat' split
  all_goals simp

/-- A failing decoding step yields the replacement character. -/
theorem utf8Step_invalid (b0 : Nat) (rest : List Nat)
    (h : (utf8Step b0 rest).2.2 = false) : (utf8Step b0 rest).1 = replChar :=
  (utf8Step_valid_or_repl b0 rest).resolve_left (by simp [h])

/-- With enough fuel, an invalid byte sequence decodes to an output
containing the replacement character. -/
theorem utf8LossyGo_invalid_mem :
    ∀ (fuel : Nat) (bs : List Nat), bs.length ≤ fuel →
      validUtf8Go fuel bs = false → replChar ∈ utf8LossyGo fuel bs := by
  intro fuel
  induction fuel with
  | zero =>
    intro bs hle hv
    cases bs with
    | nil => simp [validUtf8Go] at hv
    | cons b0 rest => simp at hle
  | succ n ih =>
    intro bs hle hv
    cases bs with
    | nil => simp [validUtf8Go] at hv
    | cons b0 rest =>
      cases hflag : (utf8Step b0 rest).2.2 with
      | false =>
        simp only [utf8LossyGo, List.mem_cons]
        exact Or.inl (utf8Step_invalid b0 rest hflag).symm
      | true =>
        have hv2 : validUtf8Go n (utf8Step b0 rest).2.1 = false := by
          simpa [validUtf8Go, hflag] using hv
        have hlen : (utf8Step b0 rest).2.1.length ≤ n :=
          Nat.le_trans (utf8Step_rest_le b0 rest) (Nat.le_of_succ_le_succ hle)
        exact List.mem_cons_of_mem _ (ih _ hlen hv2)

/-- An invalid byte sequence is decoded with at least one replacement
character: lossy decoding replaces rather than rejects. -/
theorem validUtf8_false_mem_repl (bs : List Nat)
    (h : validUtf8 bs = false) : replChar ∈ utf8Lossy bs :=
  utf8LossyGo_invalid_mem bs.length bs (Nat.le_refl _) h

/-- Incrementing an existing entry raises its stored count by one. -/
theorem cacheIncr_lookup_self (c : Cache) (p : List Nat) (n : Nat)
    (h : cacheLookup c p = some n) :
    cacheLookup (cacheIncr c p) p = some (n + 1) := by
  induction c with
  | nil => simp [cacheLookup] at h
  | cons e rest ih =>
    obtain ⟨q, m⟩ := e
    by_cases hq : q = p
    · subst hq
      simp [cacheLookup, cacheIncr] at h ⊢
      omega
    · simp [cacheLookup, cacheIncr, hq] at h ⊢
      exact ih h

/-- Incrementing one path leaves every other path's count unchanged. -/
theorem cacheIncr_lookup_other (c : Cache) (p q : List Nat) (h : q ≠ p) :
    cacheLookup (cacheIncr c p) q = cacheLookup c q := by
  induction c with
  | nil => simp [cacheIncr]
  | cons e rest ih =>
    obtain ⟨r, m⟩ := e
    by_cases hr : r = p
    · subst hr
      have hq : r ≠ q := fun hh => h hh.symm
      simp [cacheIncr, cacheLookup, hq]
    · simp only [cacheIncr, if_neg hr, cacheLookup]
      by_cases hq : r = q
      · simp [hq]
      · simp [hq, ih]

/-- Looking up a path in the appended-singleton cache. -/
theorem cacheLookup_append_single (c : Cache) (p : List Nat) (n : Nat)
    (h : cacheLookup c p = none) :
    cacheLookup (c ++ [(p, n)]) p = some n := by
  induction c with
  | nil => simp [cacheLookup]
  | cons e rest ih =>
    obtain ⟨q, m⟩ := e
    by_cases hq : q = p
    · simp [cacheLookup, hq] at h
    · simp [cacheLookup, hq] at h ⊢
      exact ih h

/-- The insert-or-increment step stores count one for a path still
absent. -/
theorem cacheBump_lookup_none (c : Cache) (p : List Nat)
    (h : cacheLookup c p = none) :
    cacheLookup (cacheBump c p) p = some 1 := by
  unfold cacheBump
  rw [h]
  exact cacheLookup_append_single c p 1 h

/-- The insert-or-increment step raises the count of a path already
present. -/
theorem cacheBump_lookup_some (c : Cache) (p : List Nat) (n : Nat)
    (h : cacheLookup c p = some n) :
    cacheLookup (cacheBump c p) p = some (n + 1) := by
  unfold cacheBump
  rw [h]
  exact cacheIncr_lookup_self c p n h

/-- Appending a fresh singleton does not change other paths' lookups. -/
theorem cacheLookup_append_single_other (c : Cache) (p q : List Nat)
    (n : Nat) (h : q ≠ p) :
    cacheLookup (c ++ [(p, n)]) q = cacheLookup c q := by
  induction c with
  | nil =>
    have hpq : ¬p = q := fun hh => h hh.symm
    simp [cacheLookup, hpq]
  | cons e rest ih =>
    obtain ⟨r, m⟩ := e
    by_cases hr : r = q <;> simp [cacheLookup, hr, ih]

/-- The insert-or-increment step leaves every other path's count
unchanged. -/
theorem cacheBump_lookup_other (c : Cache) (p q : List Nat) (h : q ≠ p) :
    cacheLookup (cacheBump c p) q = cacheLookup c q := by
  unfold cacheBump
  cases hl : cacheLookup c p with
  | none => exact cacheLookup_append_single_other c p q 1 h
  | some n => exact cacheIncr_lookup_other c p q h

/-- Incrementing preserves the key sequence of the cache. -/
theorem cacheIncr_keys (c : Cache) (p : List Nat) :
    (cacheIncr c p).map Prod.fst = c.map Prod.fst := by
  induction c with
  | nil => simp [cacheIncr]
  | cons e rest ih =>
    obtain ⟨q, n⟩ := e
    by_cases hq : q = p <;> simp [cacheIncr, hq, ih]

/-- A path is absent from the cache exactly when it is not among the
keys. -/
theorem cacheLookup_eq_none_iff (c : Cache) (p : List Nat) :
    cacheLookup c p = none ↔ p ∉ c.map Prod.fst := by
  induction c with
  | nil => simp [cacheLookup]
  | cons e rest ih =>
    obtain ⟨q, n⟩ := e
    by_cases hq : q = p
    · subst hq
      simp [cacheLookup]
    · simp only [cacheLookup, if_neg hq, List.map_cons, List.mem_cons]
      rw [ih]
      constructor
      · intro hn hor
        rcases hor with h1 | h2
        · exact hq h1.symm
        · exact hn h2
      · intro hn hm
        exact hn (Or.inr hm)

/-- Incrementing preserves positivity of all stored counts. -/
theorem cacheIncr_counts (c : Cache) (p : List Nat)
    (h : ∀ e ∈ c, 1 ≤ e.2) : ∀ e ∈ cacheIncr c p, 1 ≤ e.2 := by
  induction c with
  | nil => simp [cacheIncr]
  | cons a rest ih =>
    obtain ⟨q, n⟩ := a
    intro e he
    by_cases hq : q = p
    · rw [cacheIncr, if_pos hq] at he
      rcases List.mem_cons.mp he with h1 | h2
      · subst h1
        have := h (q, n) (List.mem_cons_self _ _)
        simpa using Nat.le_succ_of_le this
      · exact h e (List.mem_cons_of_mem _ h2)
    · rw [cacheIncr, if_neg hq] at he
      rcases List.mem_cons.mp he with h1 | h2
      · subst h1
        exact h (q, n) (List.mem_cons_self _ _)
      · exact ih (fun e' he' => h e' (List.mem_cons_of_mem _ he')) e h2

/-- The hit-path increment preserves the cache invariant. -/
theorem cacheWF_incr (c : Cache) (p : List Nat) (h : cacheWF c) :
    cacheWF (cacheIncr c p) := by
  refine ⟨cacheIncr_counts c p h.1, ?_⟩
  rw [cacheIncr_keys]
  exact h.2

/-- The miss-path insert-or-increment preserves the cache invariant. -/
theorem cacheWF_bump (c : Cache) (p : List Nat) (h : cacheWF c) :
    cacheWF (cacheBump c p) := by
  unfold cacheBump
  cases hl : cacheLookup c p with
  | some n => exact cacheWF_incr c p h
  | none =>
    constructor
    · intro e he
      rcases List.mem_append.mp he with h1 | h2
      · exact h.1 e h1
      · simp at h2
        subst h2
        exact Nat.le_refl 1
    · rw [List.map_append]
      rw [List.nodup_append]
      refine ⟨h.2, by simp, ?_⟩
      intro a ha hb
      simp at hb
      subst hb
      exact (cacheLookup_eq_none_iff c a).mp hl ha

/-- C1: a connection whose request line parses to a path absent from the
cache performs the simulated delay, then under the lock inserts the path
with count 1 if still absent (or increments the count a concurrent miss
inserted), and responds 200 with body exactly the path and Content-Length
equal to the body's byte length. -/
theorem handle_conn_miss (chunks : List (List Nat)) (cache : Cache)
    (interf : Cache → Cache) (l path : List Nat)
    (hline : readLoop [] chunks = .line l)
    (hpath : pathOfLine l = path)
    (hmiss : cacheLookup cache path = none) :
    handle_conn chunks cache interf =
      some (cacheBump (interf cache) path, missResponse path, true) ∧
    (cacheLookup (interf cache) path = none →
      cacheLookup (cacheBump (interf cache) path) path = some 1) ∧
    (∀ n, cacheLookup (interf cache) path = some n →
      cacheLookup (cacheBump (interf cache) path) path = some (n + 1)) ∧
    missResponse path =
      okHeader (utf8Encode path).length ++ utf8Encode path := by
  refine ⟨?_, ?_, ?_, ?_⟩
  · unfold handle_conn
    rw [hline]
    simp only [hpath, hmiss]
  · exact cacheBump_lookup_none (interf cache) path
  · exact fun n => cacheBump_lookup_some (interf cache) path n
  · rfl

/-- Closed instance of `handle_conn_miss`: a first request for `/a` against
the empty cache sleeps, stores count one, and echoes the path. -/
theorem handle_conn_miss_witness :
    readLoop [] [[71, 69, 84, 32, 47, 97, 13, 10]] =
      .line [71, 69, 84, 32, 47, 97] ∧
    pathOfLine [71, 69, 84, 32, 47, 97] = [47, 97] ∧
    cacheLookup [] [47, 97] = none ∧
    (handle_conn [[71, 69, 84, 32, 47, 97, 13, 10]] [] id =
      some (cacheBump (id []) [47, 97], missResponse [47, 97], true) ∧
    (cacheLookup (id ([] : Cache)) [47, 97] = none →
      cacheLookup (cacheBump (id []) [47, 97]) [47, 97] = some 1) ∧
    (∀ n, cacheLookup (id ([] : Cache)) [47, 97] = some n →
      cacheLookup (cacheBump (id []) [47, 97]) [47, 97] = some (n + 1)) ∧
    missResponse [47, 97] =
      okHeader (utf8Encode [47, 97]).length ++ utf8Encode [47, 97]) :=
  ⟨by decide, by decide, by decide,
    handle_conn_miss [[71, 69, 84, 32, 47, 97, 13, 10]] [] id
      [71, 69, 84, 32, 47, 97] [47, 97] (by decide) (by decide) (by decide)⟩

/-- C2: a connection whose request line parses to a path already in the
cache increments that path's count by exactly one under the lock, leaves
every other entry unchanged, skips the simulated delay, and responds 200
with body `path ++ " 🙂"` and a matching Content-Length; the result is the
same for every interference function, as the hit path touches the cache
only once. -/
theorem handle_conn_hit (chunks : List (List Nat)) (cache : Cache)
    (interf : Cache → Cache) (l path : List Nat) (n : Nat)
    (hline : readLoop [] chunks = .line l)
    (hpath : pathOfLine l = path)
    (hhit : cacheLookup cache path = some n) :
    handle_conn chunks cache interf =
      some (cacheIncr cache path, hitResponse path, false) ∧
    cacheLookup (cacheIncr cache path) path = some (n + 1) ∧
    (∀ q, q ≠ path →
      cacheLookup (cacheIncr cache path) q = cacheLookup cache q) ∧
    hitResponse path =
      okHeader (utf8Encode (path ++ hitMarker)).length ++
        utf8Encode (path ++ hitMarker) := by
  refine ⟨?_, ?_, ?_, ?_⟩
  · unfold handle_conn
    rw [hline]
    simp only [hpath, hhit]
  · exact cacheIncr_lookup_self cache path n hhit
  · exact fun q hq => cacheIncr_lookup_other cache path q hq
  · rfl

/-- Closed instance of `handle_conn_hit`: a second request for `/a` skips
the delay, bumps the count to two, and echoes the path with the hit
marker. -/
theorem handle_conn_hit_witness :
    readLoop [] [[71, 69, 84, 32, 47, 97, 13, 10]] =
      .line [71, 69, 84, 32, 47, 97] ∧
    pathOfLine [71, 69, 84, 32, 47, 97] = [47, 97] ∧
    cacheLookup [([47, 97], 1)] [47, 97] = some 1 ∧
    (handle_conn [[71, 69, 84, 32, 47, 97, 13, 10]] [([47, 97], 1)] id =
      some (cacheIncr [([47, 97], 1)] [47, 97], hitResponse [47, 97],
        false) ∧
    cacheLookup (cacheIncr [([47, 97], 1)] [47, 97]) [47, 97] =
      some (1 + 1) ∧
    (∀ q, q ≠ [47, 97] →
      cacheLookup (cacheIncr [([47, 97], 1)] [47, 97]) q =
        cacheLookup [([47, 97], 1)] q) ∧
    hitResponse [47, 97] =
      okHeader (utf8Encode ([47, 97] ++ hitMarker)).length ++
        utf8Encode ([47, 97] ++ hitMarker)) :=
  ⟨by decide, by decide, by decide,
    handle_conn_hit [[71, 69, 84, 32, 47, 97, 13, 10]] [([47, 97], 1)] id
      [71, 69, 84, 32, 47, 97] [47, 97] 1 (by decide) (by decide)
      (by decide)⟩

/-- C4: when the 8192-byte buffer fills without a CRLF being found, the
handler writes exactly the fixed 400 response bytes (status 400, empty
body) and closes; the cache is untouched and no delay is performed. -/
theorem handle_conn_full (chunks : List (List Nat)) (cache : Cache)
    (interf : Cache → Cache) (hfull : readLoop [] chunks = .full) :
    handle_conn chunks cache interf = some (cache, resp400, false) ∧
    resp400 =
      [72, 84, 84, 80, 47, 49, 46, 49, 32, 52, 48, 48, 32, 66, 97, 100,
        32, 82, 101, 113, 117, 101, 115, 116, 13, 10, 67, 111, 110, 110,
        101, 99, 116, 105, 111, 110, 58, 32, 99, 108, 111, 115, 101, 13,
        10, 67, 111, 110, 116, 101, 110, 116, 45, 76, 101, 110, 103, 116,
        104, 58, 32, 48, 13, 10, 13, 10] := by
  constructor
  · unfold handle_conn
    rw [hfull]
  · decide

/-- A buffer all of whose bytes equal `a` contains no CRLF. -/
theorem find_crlf_all97 (l : List Nat) (h : ∀ b ∈ l, b = 97) :
    find_crlf l = none := by
  induction l with
  | nil => rfl
  | cons a rest ih =>
    cases rest with
    | nil => rfl
    | cons b r2 =>
      have ha : a = 97 := h a (List.mem_cons_self _ _)
      have hb : b = 97 := h b (List.mem_cons_of_mem _ (List.mem_cons_self _ _))
      rw [find_crlf, ih (fun x hx => h x (List.mem_cons_of_mem _ hx))]
      subst ha
      subst hb
      simp

/-- A single read of 8192 `a` bytes fills the buffer without a CRLF. -/
theorem readLoop_full_replicate :
    readLoop [] [List.replicate 8192 97] = .full := by
  rw [readLoop]
  have h1 : ¬(([] : List Nat).length = bufSize) := by decide
  rw [if_neg h1]
  have h2 : ¬((List.replicate 8192 97).length = 0) := by
    rw [List.length_replicate]
    decide
  rw [if_neg h2]
  have h3 : find_crlf ([] ++ List.replicate 8192 97) = none := by
    rw [List.nil_append]
    exact find_crlf_all97 _ (fun b hb => List.eq_of_mem_replicate hb)
  rw [h3]
  rw [readLoop]
  have h4 : (([] : List Nat) ++ List.replicate 8192 97).length = bufSize := by
    rw [List.nil_append, List.length_replicate]
    rfl
  rw [if_pos h4]

/-- Closed instance of `handle_conn_full`: 8192 bytes of `a` in one read
fill the buffer with no CRLF and draw the 400 response. -/
theorem handle_conn_full_witness :
    readLoop [] [List.replicate 8192 97] = .full ∧
    handle_conn [List.replicate 8192 97] [] id = some ([], resp400, false) :=
  ⟨readLoop_full_replicate,
    (handle_conn_full [List.replicate 8192 97] [] id
      readLoop_full_replicate).1⟩

/-- C9: a zero-length read at any point before a CRLF has been found —
also after earlier reads already delivered bytes — makes the handler
return success with no response bytes written, no cache change, and no
delay. -/
theorem handle_conn_closed (chunks : List (List Nat)) (cache : Cache)
    (interf : Cache → Cache) (hclosed : readLoop [] chunks = .closed) :
    handle_conn chunks cache interf = some (cache, [], false) := by
  unfold handle_conn
  rw [hclosed]

/-- Closed instance of `handle_conn_closed`: the peer sends `GET` and then
closes; the zero-length read arrives on the second iteration, after bytes
were already received, and still produces no response. -/
theorem handle_conn_closed_witness :
    readLoop [] [[71, 69, 84], []] = .closed ∧
    handle_conn [[71, 69, 84], []] [([47], 5)] id =
      some ([([47], 5)], [], false) :=
  ⟨by decide,
    handle_conn_closed [[71, 69, 84], []] [([47], 5)] id (by decide)⟩

/-- C5: splitting the request line on spaces, a first token other than
exactly `GET` forces the parsed path to `/` whatever follows; a missing
second token defaults the path to `/`; otherwise the path is the second
token decoded permissively, an invalid token being decoded with a
replacement character rather than rejected. -/
theorem parse_path_cases (l : List Nat) :
    (∀ method parts, l.splitOn 32 = method :: parts → method ≠ getBytes →
      parse_path_from_request_line l = some rootPath) ∧
    (l.splitOn 32 = [getBytes] →
      parse_path_from_request_line l = some rootPath) ∧
    (∀ tok parts, l.splitOn 32 = getBytes :: tok :: parts →
      parse_path_from_request_line l = some (utf8Lossy tok) ∧
      (validUtf8 tok = false → replChar ∈ utf8Lossy tok)) := by
  refine ⟨?_, ?_, ?_⟩
  · intro method parts hsplit hne
    unfold parse_path_from_request_line
    rw [hsplit]
    show (if method ≠ getBytes then some rootPath
      else some (utf8Lossy (parts.headD slashBytes))) = some rootPath
    rw [if_pos hne]
  · intro hsplit
    unfold parse_path_from_request_line
    rw [hsplit]
    decide
  · intro tok parts hsplit
    constructor
    · unfold parse_path_from_request_line
      rw [hsplit]
      show (if getBytes ≠ getBytes then some rootPath
        else some (utf8Lossy ((tok :: parts).headD slashBytes))) =
        some (utf8Lossy tok)
      rw [if_neg (by simp)]
      rfl
    · exact fun h => validUtf8_false_mem_repl tok h

/-- Closed instance of `parse_path_cases`: the token `0xFF` after `GET` is
invalid UTF-8 and is decoded to the replacement character instead of being
rejected. -/
theorem parse_path_cases_witness :
    List.splitOn 32 [71, 69, 84, 32, 255] = getBytes :: [255] :: [] ∧
    validUtf8 [255] = false ∧
    (parse_path_from_request_line [71, 69, 84, 32, 255] =
      some (utf8Lossy [255]) ∧
    (validUtf8 [255] = false → replChar ∈ utf8Lossy [255])) :=
  ⟨by decide, by decide,
    (parse_path_cases [71, 69, 84, 32, 255]).2.2 [255] [] (by decide)⟩

/-- C10: `parse_path_from_request_line` returns `some` on every input —
splitting on spaces always yields at least one (possibly empty) token, so
the method lookup never fails — hence the `/` fallback at its call site
always returns the parsed value. -/
theorem parse_path_total (l : List Nat) :
    ∃ p, parse_path_from_request_line l = some p ∧ pathOfLine l = p := by
  cases hs : l.splitOn 32 with
  | nil => exact absurd hs (List.splitOnP_ne_nil _ _)
  | cons method parts =>
    unfold pathOfLine parse_path_from_request_line
    rw [hs]
    show ∃ p, (if method ≠ getBytes then some rootPath
      else some (utf8Lossy (parts.headD slashBytes))) = some p ∧
      ((if method ≠ getBytes then some rootPath
        else some (utf8Lossy (parts.headD slashBytes))).getD rootPath = p)
    by_cases hm : method ≠ getBytes
    · rw [if_pos hm]
      exact ⟨rootPath, rfl, rfl⟩
    · rw [if_neg hm]
      exact ⟨utf8Lossy (parts.headD slashBytes), rfl, rfl⟩

/-- C6: counts are at least one from the moment an entry is present and
keys are unique; both cache operations — the hit increment and the miss
insert-or-increment — preserve the invariant, neither ever removes an
entry, and every cache state produced by the handler is well-formed when
the states it read were. -/
theorem cache_invariant_preserved :
    (∀ (c : Cache) (p : List Nat), cacheWF c → cacheWF (cacheIncr c p)) ∧
    (∀ (c : Cache) (p : List Nat), cacheWF c → cacheWF (cacheBump c p)) ∧
    (∀ (c : Cache) (p : List Nat), cacheLookup c p = none →
      cacheLookup (cacheBump c p) p = some 1) ∧
    (∀ (c : Cache) (p q : List Nat), (cacheLookup c q).isSome →
      (cacheLookup (cacheIncr c p) q).isSome ∧
      (cacheLookup (cacheBump c p) q).isSome) ∧
    (∀ (chunks : List (List Nat)) (cache : Cache) (interf : Cache → Cache)
      (res : Cache × List Nat × Bool),
      cacheWF cache → cacheWF (interf cache) →
      handle_conn chunks cache interf = some res → cacheWF res.1) := by
  refine ⟨cacheWF_incr, cacheWF_bump, cacheBump_lookup_none, ?_, ?_⟩
  · intro c p q h
    constructor
    · by_cases hq : q = p
      · subst hq
        obtain ⟨n, hn⟩ := Option.isSome_iff_exists.mp h
        rw [cacheIncr_lookup_self c q n hn]
        rfl
      · rw [cacheIncr_lookup_other c p q hq]
        exact h
    · by_cases hq : q = p
      · subst hq
        obtain ⟨n, hn⟩ := Option.isSome_iff_exists.mp h
        rw [cacheBump_lookup_some c q n hn]
        rfl
      · rw [cacheBump_lookup_other c p q hq]
        exact h
  · intro chunks cache interf res hwf hwfi hres
    unfold handle_conn at hres
    split at hres
    · exact absurd hres (by simp)
    · rw [Option.some_inj] at hres
      rw [← hres]
      exact hwf
    · rw [Option.some_inj] at hres
      rw [← hres]
      exact hwf
    · split at hres
      · rw [Option.some_inj] at hres
        rw [← hres]
        exact cacheWF_incr cache _ hwf
      · rw [Option.some_inj] at hres
        rw [← hres]
        exact cacheWF_bump (interf cache) _ hwfi

/-- Closed instance of `cache_invariant_preserved`: a hit on `/` and a miss
of `/a` both preserve well-formedness, and the handler's resulting cache
after a first request for `/a` is well-formed. -/
theorem cache_invariant_preserved_witness :
    cacheWF [([47], 3)] ∧
    cacheWF (cacheIncr [([47], 3)] [47]) ∧
    cacheWF (cacheBump [([47], 3)] [47, 97]) ∧
    cacheWF ([([47, 97], 1)] : Cache) :=
  ⟨by decide,
    cache_invariant_preserved.1 [([47], 3)] [47] (by decide),
    cache_invariant_preserved.2.1 [([47], 3)] [47, 97] (by decide),
    cache_invariant_preserved.2.2.2.2 [[71, 69, 84, 32, 47, 97, 13, 10]]
      [] id ([([47, 97], 1)], missResponse [47, 97], true) (by decide)
      (by decide) (by decide)⟩

/-- C7: the shutdown report is built from a cloned snapshot of all cache
entries; when empty it is the single placeholder line, otherwise one
`count path` line per entry, the printed order being a permutation of the
snapshot sorted by descending count (tie order unspecified). -/
theorem print_cache_stats_spec (items : List (List Nat × Nat)) :
    (items = [] → statsLines items = [strBytes "(empty)"]) ∧
    (items ≠ [] → statsLines items = (sortByCountDesc items).map statsLine ∧
      (statsLines items).length = items.length) ∧
    (sortByCountDesc items).Perm items ∧
    List.Sorted descCount (sortByCountDesc items) := by
  refine ⟨?_, ?_, List.perm_insertionSort descCount items,
    List.sorted_insertionSort descCount items⟩
  · intro h
    rw [statsLines, if_pos h]
  · intro h
    constructor
    · rw [statsLines, if_neg h]
    · rw [statsLines, if_neg h, List.length_map]
      exact (List.perm_insertionSort descCount items).length_eq

/-- Closed instance of `print_cache_stats_spec`: two entries are reported
one line each, reordered with the larger count first. -/
theorem print_cache_stats_spec_witness :
    (([([97], 1), ([98], 2)] : List (List Nat × Nat)) ≠ []) ∧
    (statsLines [([97], 1), ([98], 2)] =
      (sortByCountDesc [([97], 1), ([98], 2)]).map statsLine ∧
    (statsLines [([97], 1), ([98], 2)]).length = 2) ∧
    sortByCountDesc [([97], 1), ([98], 2)] = [([98], 2), ([97], 1)] :=
  ⟨by decide, (print_cache_stats_spec [([97], 1), ([98], 2)]).2.1
    (by decide), by decide⟩

/-- C8: `ThreadPool::new` requires a positive size — for every size at
least one the assertion passes and one worker per id is spawned, and
construction aborts exactly when the size is zero. -/
theorem threadPoolNew_spec (size : Nat) :
    (1 ≤ size → threadPoolNew size = some ⟨List.range size⟩ ∧
      ∀ p, threadPoolNew size = some p → p.workers.length = size) ∧
    (threadPoolNew size = none ↔ size = 0) := by
  constructor
  · intro h
    have h0 : 0 < size := h
    constructor
    · rw [threadPoolNew, if_pos h0]
    · intro p hp
      rw [threadPoolNew, if_pos h0, Option.some_inj] at hp
      rw [← hp]
      exact List.length_range size
  · constructor
    · intro h
      by_contra hs
      have hpos : 0 < size := Nat.pos_of_ne_zero hs
      rw [threadPoolNew, if_pos hpos] at h
      exact Option.noConfusion h
    · intro h
      subst h
      rfl

/-- Closed instance of `threadPoolNew_spec`: size four constructs a pool of
four workers, and size zero aborts. -/
theorem threadPoolNew_spec_witness :
    (1 ≤ 4) ∧
    (threadPoolNew 4 = some ⟨List.range 4⟩ ∧
      ∀ p, threadPoolNew 4 = some p → p.workers.length = 4) ∧
    (threadPoolNew 0 = none ↔ 0 = 0) :=
  ⟨by decide, (threadPoolNew_spec 4).1 (by decide), (threadPoolNew_spec 0).2⟩
